import Mathlib

/-!
Verification development for the tessdata path-finder of the `lios` repository.

Two Python modules are embedded:
* `tesseract_path_finder.py` — class `FastTessdataFinder` (cached, prioritized,
  budget-bounded search) plus module functions `validate_tessdata_path`, `clear_cache`.
* `tessract_path_finder.py` — class `TesseractPathFinder` (exhaustive search,
  language listing).

Filesystem, environment, subprocess and registry access are modelled by an
explicit `World` record of (string-keyed) effect functions; every code path
that can raise in Python is modelled with `Option` so that the embedded
functions are total ("never raises" becomes totality of the embedding).
Python strings are Lean `String`s (a structure over `List Char`, compared by
code points exactly as Python compares `str`), and all string primitives used
by the code are re-implemented structurally below so that concrete runs reduce
by `rfl`/`decide`.
-/

namespace Tessdata

/-! ### String primitives (Python `str` operations used by the code) -/

/-- Split a char list at every occurrence of `sep`, keeping empty pieces —
the behaviour of Python `str.split(sep)` for a one-character separator. -/
def splitOnCharAux (sep : Char) : List Char → List Char → List String
  | [], acc => [String.mk acc.reverse]
  | c :: cs, acc =>
    if c == sep then String.mk acc.reverse :: splitOnCharAux sep cs []
    else splitOnCharAux sep cs (c :: acc)

/-- Python `s.split(sep)` for a one-character separator. -/
def splitOnChar (sep : Char) (s : String) : List String :=
  splitOnCharAux sep s.toList []

/-- Python `str.split()` (no argument): split on runs of whitespace,
discarding empty pieces. -/
def splitWsAux : List Char → List Char → List String
  | [], acc => if acc.isEmpty then [] else [String.mk acc.reverse]
  | c :: cs, acc =>
    if c.isWhitespace then
      (if acc.isEmpty then [] else [String.mk acc.reverse]) ++ splitWsAux cs []
    else splitWsAux cs (c :: acc)

/-- Python `line.split()`. -/
def pySplitWs (s : String) : List String := splitWsAux s.toList []

/-- Does `needle` occur as a contiguous sublist of the list? (Python `in`.) -/
def containsAux (needle : List Char) : List Char → Bool
  | [] => needle.isPrefixOf []
  | c :: cs => needle.isPrefixOf (c :: cs) || containsAux needle cs

/-- Python substring test `needle in hay`. -/
def strContains (hay needle : String) : Bool :=
  containsAux needle.toList hay.toList

/-- Python `hay.startswith(pre)`. -/
def strStartsWith (hay pre : String) : Bool :=
  pre.toList.isPrefixOf hay.toList

/-- Python `hay.endswith(suf)`. -/
def strEndsWith (hay suf : String) : Bool :=
  suf.toList.isSuffixOf hay.toList

/-- ASCII lower-casing of one character (what Python `str.lower()` does on the
ASCII paths and file names this code manipulates). -/
def charLower (c : Char) : Char :=
  if 'A' ≤ c ∧ c ≤ 'Z' then Char.ofNat (c.toNat + 32) else c

/-- Python `s.lower()` (restricted to ASCII, which covers every string the
finder compares). -/
def strLower (s : String) : String :=
  String.mk (s.toList.map charLower)

/-- Python `s[:-n]` for `n ≤ len(s)`. -/
def strDropRight (s : String) (n : Nat) : String :=
  String.mk (s.toList.take (s.toList.length - n))

/-- Python `s.rstrip('/\\')`: drop trailing slashes and backslashes. -/
def rstripSlashes (s : String) : String :=
  String.mk ((s.toList.reverse.dropWhile fun c => c == '/' || c == '\\').reverse)

/-- Code-point lexicographic `≤` on char lists — Python's `str` ordering. -/
def charListLe : List Char → List Char → Bool
  | [], _ => true
  | _ :: _, [] => false
  | a :: as, b :: bs =>
    if a < b then true else if b < a then false else charListLe as bs

/-- Python string comparison `a <= b`. -/
def strLe (a b : String) : Bool := charListLe a.toList b.toList

/-! ### Path primitives (`os.path` / `pathlib`, POSIX flavour) -/

/-- `posixpath.join(a, b)` for the shapes used by the code (`b` relative). -/
def pyJoin (a b : String) : String :=
  if a == "" then b
  else if a.toList.getLast? == some '/' then a ++ b
  else a ++ "/" ++ b

/-- `posixpath.basename`: the part after the last slash. -/
def pyBasename (p : String) : String :=
  ((splitOnChar '/' p).getLast?).getD ""

/-- `pathlib.PurePath.parent` for the POSIX paths used here: strip the last
component; `/x` becomes `/`, a slash-free name becomes `.`. -/
def pyParent (p : String) : String :=
  let cs := p.toList
  let j := cs.reverse.findIdx (· == '/')
  if j == cs.length then "."
  else
    let keep := cs.take (cs.length - 1 - j)
    if keep.isEmpty then "/" else String.mk keep

/-- `pathlib.PurePath.suffix`: the substring of the final name from its last
dot, provided that dot is neither the first nor the last character; otherwise
the empty string.  (So `"eng.traineddata"` ↦ `".traineddata"` but the bare
file name `".traineddata"` ↦ `""`.) -/
def pathSuffix (name : String) : String :=
  let cs := name.toList
  let j := cs.reverse.findIdx (· == '.')
  if j == cs.length then ""
  else
    let i := cs.length - 1 - j
    if 0 < i ∧ i < cs.length - 1 then String.mk (cs.drop i) else ""

/-- `pathlib.PurePath.stem`: the final name minus `pathSuffix`. -/
def pathStem (name : String) : String :=
  strDropRight name (pathSuffix name).toList.length

/-- One step of `posixpath.normpath`'s component scan.  `acc` holds the
already-accepted components in reverse. -/
def normpathComps (initialSlashes : Bool) : List String → List String → List String
  | acc, [] => acc.reverse
  | acc, comp :: rest =>
    if comp == "" || comp == "." then normpathComps initialSlashes acc rest
    else if comp != ".." || (!initialSlashes && acc.isEmpty)
        || (acc.head? == some "..") then
      normpathComps initialSlashes (comp :: acc) rest
    else if !acc.isEmpty then normpathComps initialSlashes acc.tail rest
    else normpathComps initialSlashes acc rest

/-- `posixpath.normpath`: collapse `//`, `.` and (purely lexically) `..`. -/
def normpath (path : String) : String :=
  if path == "" then "."
  else
    let oneSlash := strStartsWith path "/"
    let twoSlash := strStartsWith path "//" && !strStartsWith path "///"
    let comps := normpathComps oneSlash [] (splitOnChar '/' path)
    let joined := String.intercalate "/" comps
    let out :=
      (if twoSlash then "//" else if oneSlash then "/" else "") ++ joined
    if out == "" then "." else out

/-- Python `s[n:]`. -/
def strDropLeft (s : String) (n : Nat) : String :=
  String.mk (s.toList.drop n)

/-- `posixpath.expanduser` restricted to the leading-`~` forms the code uses. -/
def expandUser (home s : String) : String :=
  if s == "~" then home
  else if strStartsWith s "~/" then home ++ strDropLeft s 1
  else s

/-- `posixpath.abspath`: make absolute against `cwd`, then normalize. -/
def osAbspath (cwd p : String) : String :=
  if strStartsWith p "/" then normpath p else normpath (pyJoin cwd p)

/-! ### The world: filesystem, environment and process effects -/

/-- Filesystem abstraction.  Paths are raw strings; `listDir p = none` models
an `OSError`/`PermissionError` raised when listing `p` (including `p` being
absent or not a directory). -/
structure FS where
  isDir : String → Bool
  isFile : String → Bool
  pathExists : String → Bool
  readable : String → Bool
  executable : String → Bool
  isLink : String → Bool
  listDir : String → Option (List String)
  /-- `os.path.realpath` / `pathlib.Path.resolve` (symlink resolution). -/
  resolve : String → String
  /-- `stat().st_size`; `none` models a raised `OSError`. -/
  fileSize : String → Option Nat

/-- Cached record on disk: the JSON document written by `_save_cache`.
`dataTimestamp` is the stored `timestamp` field. -/
structure CacheData where
  paths : List String
  dataTimestamp : Int

/-- State of the cache file.  `present` is `cache_file.exists()`; `mtime` is
the file's `st_mtime`; `data = none` models an unreadable or malformed file
(`json.load` raising). -/
structure CacheState where
  present : Bool
  mtime : Int
  data : Option CacheData

/-- The ambient machine: every effectful primitive the finder touches. -/
structure World where
  fs : FS
  env : String → Option String
  osType : String
  home : String
  cwd : String
  /-- `shutil.which`. -/
  which : String → Option String
  /-- Result of `subprocess.run(['tesseract', '--print-parameters'], timeout=3)`:
  `none` models a raise (binary absent / timeout), `some (rc, out)` the
  return code and stdout. -/
  tesseractPrintParams : Option (Int × String)
  /-- Result of `subprocess.run([binary, '--print-parameters'], timeout=5)`
  for a given binary (used by the exhaustive finder). -/
  printParams : String → Option (Int × String)
  /-- `re.findall(r'[/\\][\w/\\.-]*tessdata[/\\]?[\w/\\.-]*', line)` —
  treated as an uninterpreted text primitive; no claim depends on the regex
  engine's internals, and every concrete world below leaves the tesseract
  binary absent so it is never consulted. -/
  reFindallTessdata : String → List String
  /-- `glob.glob` (including `recursive=True` uses): a filesystem primitive. -/
  globFn : String → List String
  /-- `os.path.expandvars`: depends on the process environment. -/
  expandVars : String → String
  /-- Windows registry `InstallPath` lookup for a given key path. -/
  registry : String → Option String
  /-- Whether the `winreg` import succeeded. -/
  winregAvailable : Bool
  cache : CacheState
  /-- `time.time()` at the cache read. -/
  now : Int
  /-- Elapsed seconds at the `k`-th `_is_timeout` check of the probe loop. -/
  elapsed : Nat → Int
  /-- The finder's `timeout` budget (default 8 seconds). -/
  timeout : Int

/-! ### Validators -/

/-- `FastTessdataFinder._is_valid_tessdata_quick`: `p.is_dir()` and then
`any(f.suffix == '.traineddata' for f in p.iterdir())`; every raise resolves
to `False`. -/
def isValidTessdataQuick (fs : FS) (path : String) : Bool :=
  if fs.isDir path then
    match fs.listDir path with
    | some entries => entries.any fun f => pathSuffix f == ".traineddata"
    | none => false
  else false

/-- `TesseractPathFinder._is_valid_tessdata_dir`: `os.listdir(path)` and
`any(f.endswith('.traineddata') for f in files)`; every raise resolves to
`False`. -/
def isValidTessdataDir (fs : FS) (path : String) : Bool :=
  match fs.listDir path with
  | some files => files.any fun f => strEndsWith f ".traineddata"
  | none => false

/-! ### Cache (`FastTessdataFinder._load_cache`) -/

/-- `self.cache_max_age = 6 * 3600`. -/
def cacheMaxAge : Int := 6 * 3600

/-- `FastTessdataFinder._load_cache`: miss (empty list) if the file is absent,
if `time.time() - st_mtime` exceeds the expiry age, or if reading/parsing
raises; otherwise the subset of the stored `paths` that still pass the quick
validator (so an all-dead record also yields the empty list). -/
def loadCache (fs : FS) (c : CacheState) (now : Int) : List String :=
  if !c.present then []
  else if now - c.mtime > cacheMaxAge then []
  else
    match c.data with
    | none => []
    | some d =>
      let validPaths := d.paths.filter fun p => isValidTessdataQuick fs p
      if validPaths.isEmpty then [] else validPaths

/-! ### Probes of the fast finder -/

/-- The fixed env-var list of `_check_environment_vars`. -/
def envVarNames : List String :=
  ["TESSDATA_PREFIX", "TESSERACT_DATA_PATH", "TESSERACT_PREFIX"]

/-- One variable's step of `_check_environment_vars`: for a truthy value,
test the value and its `tessdata` subdirectory and append the absolutized
first hit (the inner `break`). -/
def envVarStep (w : World) (paths : List String) (var : String) : List String :=
  match w.env var with
  | none => paths
  | some value =>
    if value == "" then paths
    else
      match [value, pyJoin value "tessdata"].find?
          (fun c => isValidTessdataQuick w.fs c) with
      | some c => paths ++ [osAbspath w.cwd c]
      | none => paths

/-- `FastTessdataFinder._check_environment_vars`. -/
def checkEnvironmentVars (w : World) : List String :=
  envVarNames.foldl (envVarStep w) []

/-- `FastTessdataFinder._get_tessdata_from_binary`: test a per-OS list of
offsets relative to the binary's resolved parent directory.  (`Path` string
arithmetic keeps the `..` components; only `resolve()` normalizes.) -/
def getTessdataFromBinary (w : World) (binaryPath : String) : List String :=
  let binDir := w.fs.resolve (pyParent binaryPath)
  let relatives :=
    if w.osType == "windows" then ["../tessdata", "tessdata", "../share/tessdata"]
    else
      ["../share/tesseract-ocr/tessdata", "../share/tessdata",
       "../../share/tesseract-ocr/tessdata", "../tessdata"]
  relatives.foldl
    (fun paths rel =>
      let candidate := pyJoin binDir rel
      if w.fs.pathExists candidate && isValidTessdataQuick w.fs candidate then
        paths ++ [w.fs.resolve candidate]
      else paths)
    []

/-- `FastTessdataFinder._check_tesseract_command`: parse
`tesseract --print-parameters` output for validated tessdata paths; if that
yields nothing, fall back to offsets from `shutil.which('tesseract')`.
A raise from `subprocess.run` aborts the whole method (caught by its own
`except`, yielding `[]`). -/
def checkTesseractCommand (w : World) : List String :=
  match w.tesseractPrintParams with
  | none => []
  | some (rc, out) =>
    let fromOutput :=
      if rc == 0 then
        ((splitOnChar '\n' out).filter
            (fun line => strContains (strLower line) "tessdata")).flatMap
          fun line =>
            (w.reFindallTessdata line).filterMap fun m =>
              let cleanPath := rstripSlashes m
              if isValidTessdataQuick w.fs cleanPath then
                some (osAbspath w.cwd cleanPath)
              else none
      else []
    if fromOutput.isEmpty then
      match w.which "tesseract" with
      | some bin => getTessdataFromBinary w bin
      | none => []
    else fromOutput

/-- `FastTessdataFinder._get_smart_common_paths`. -/
def getSmartCommonPaths (osType : String) : List String :=
  if osType == "linux" then
    ["/usr/share/tesseract-ocr/tessdata",
     "/usr/share/tessdata",
     "/usr/local/share/tesseract-ocr/tessdata",
     "/usr/share/tesseract-ocr/*/tessdata",
     "/snap/tesseract/current/usr/share/tesseract-ocr/tessdata",
     "~/.local/share/tesseract/tessdata",
     "~/miniconda*/share/tesseract-ocr/tessdata",
     "~/anaconda*/share/tesseract-ocr/tessdata"]
  else if osType == "darwin" then
    ["/opt/homebrew/share/tesseract-ocr/tessdata",
     "/usr/local/share/tesseract-ocr/tessdata",
     "/usr/share/tesseract-ocr/tessdata",
     "~/miniconda*/share/tesseract-ocr/tessdata",
     "~/anaconda*/share/tesseract-ocr/tessdata"]
  else
    ["C:/Program Files/Tesseract-OCR/tessdata",
     "C:/Program Files (x86)/Tesseract-OCR/tessdata",
     "~/AppData/Local/Tesseract-OCR/tessdata",
     "~/miniconda*/Library/share/tesseract-ocr/tessdata",
     "~/anaconda*/Library/share/tesseract-ocr/tessdata"]

/-- `FastTessdataFinder._check_path_with_glob`. -/
def checkPathWithGlob (w : World) (pattern : String) : List String :=
  let expanded := expandUser w.home (w.expandVars pattern)
  if strContains expanded "*" then
    (w.globFn expanded).filterMap fun m =>
      if isValidTessdataQuick w.fs m then some (osAbspath w.cwd m) else none
  else if isValidTessdataQuick w.fs expanded then [osAbspath w.cwd expanded]
  else []

/-- `FastTessdataFinder._check_common_paths_smart`.  The worker pool checks
every pattern and the results are merged; the pool and its collection
timeouts are abstracted away (an execution in which no per-pattern check is
abandoned), which is the behaviour every claim below quantifies over. -/
def checkCommonPathsSmart (w : World) : List String :=
  (getSmartCommonPaths w.osType).flatMap fun p => checkPathWithGlob w p

/-- The hardcoded binary fallback list of `_find_tesseract_binaries`. -/
def commonBinLocations : List String :=
  ["/usr/bin/tesseract", "/usr/local/bin/tesseract",
   "C:/Program Files/Tesseract-OCR/tesseract.exe",
   "C:/Program Files (x86)/Tesseract-OCR/tesseract.exe"]

/-- `FastTessdataFinder._find_tesseract_binaries`. -/
def findTesseractBinaries (w : World) : List String :=
  let fromWhich := ["tesseract", "tesseract.exe"].filterMap w.which
  commonBinLocations.foldl
    (fun bs p =>
      if w.fs.isFile p && w.fs.executable p && !(bs.contains p) then bs ++ [p]
      else bs)
    fromWhich

/-- `FastTessdataFinder._check_binary_relative_paths`.  (The per-binary
`_is_timeout` break only prunes work after the deadline; modelled as an
execution that stays within the budget.) -/
def checkBinaryRelativePaths (w : World) : List String :=
  (findTesseractBinaries w).flatMap fun b => getTessdataFromBinary w b

/-- The Linux patterns of `_check_package_locations`. -/
def versionedPatterns : List String :=
  ["/usr/share/tesseract-ocr/*/tessdata",
   "/usr/share/tesseract/*/tessdata",
   "/usr/local/share/tesseract-ocr/*/tessdata"]

/-- The two registry keys of `_check_windows_registry`. -/
def registryKeys : List String :=
  ["SOFTWARE\\Tesseract-OCR", "SOFTWARE\\WOW6432Node\\Tesseract-OCR"]

/-- `FastTessdataFinder._check_windows_registry`. -/
def checkWindowsRegistry (w : World) : List String :=
  registryKeys.filterMap fun k =>
    match w.registry k with
    | some installPath =>
      let tessdataPath := pyJoin installPath "tessdata"
      if isValidTessdataQuick w.fs tessdataPath then
        some (osAbspath w.cwd tessdataPath)
      else none
    | none => none

/-- `FastTessdataFinder._check_package_locations`. -/
def checkPackageLocations (w : World) : List String :=
  if w.osType == "linux" then
    versionedPatterns.flatMap fun pat =>
      (w.globFn pat).filterMap fun m =>
        if isValidTessdataQuick w.fs m then some (osAbspath w.cwd m) else none
  else if w.osType == "darwin" then
    ["/opt/homebrew/share/tesseract-ocr/tessdata",
     "/usr/local/share/tesseract-ocr/tessdata"].filter
      fun p => isValidTessdataQuick w.fs p
  else if w.osType == "windows" then
    if w.winregAvailable then checkWindowsRegistry w else []
  else []

/-! ### Ranker (`FastTessdataFinder._finalize_paths`) -/

/-- The `-10` per data file term of `priority_key` (pathlib `glob` on
`*.traineddata` matches exactly the entries whose name ends in
`.traineddata`); a raise while listing contributes nothing. -/
def langFileBonus (fs : FS) (path : String) : Int :=
  match fs.listDir path with
  | some entries =>
    -10 * ((entries.filter fun f => strEndsWith f ".traineddata").length : Int)
  | none => 0

/-- The composite score of `priority_key` (lower sorts first): `-1000` when
the lowercased path *string* contains an env-var-style marker substring,
`-500` under `/usr/share`, `-300` for home-like substrings, `-10` per data
file. -/
def priorityScore (fs : FS) (path : String) : Int :=
  let pl := strLower path
  (if strContains pl "tessdata_prefix" || strContains pl "tesseract_data"
    then -1000 else 0)
  + (if strContains pl "/usr/share" then -500 else 0)
  + (if strContains pl "home" || strContains pl "users" || strContains pl "~"
      then -300 else 0)
  + langFileBonus fs path

/-- The sort key order of `priority_key`: ascending `(score, path.lower())`,
exactly Python's tuple comparison. -/
def rankLE (fs : FS) (a b : String) : Prop :=
  priorityScore fs a < priorityScore fs b ∨
    (priorityScore fs a = priorityScore fs b ∧ strLe (strLower a) (strLower b) = true)

instance rankLEDecidable (fs : FS) : DecidableRel (rankLE fs) := fun a b =>
  inferInstanceAs (Decidable (priorityScore fs a < priorityScore fs b ∨
    (priorityScore fs a = priorityScore fs b ∧
      strLe (strLower a) (strLower b) = true)))

/-- `if x not in acc: acc.append(x)` — the dedup insertion used throughout. -/
def insertNew (acc : List String) (x : String) : List String :=
  if acc.contains x then acc else acc ++ [x]

/-- One iteration of the `_finalize_paths` validation loop. -/
def finalizeStep (fs : FS) (acc : List String) (p : String) : List String :=
  if isValidTessdataQuick fs p then insertNew acc (normpath p) else acc

/-- The validation/normalization/dedup loop of `_finalize_paths`: keep the
normalized form of each raw candidate that passes the quick validator,
first occurrence first. -/
def validNormAcc (fs : FS) (paths : List String) : List String :=
  paths.foldl (finalizeStep fs) []

/-- `FastTessdataFinder._finalize_paths`: validate, normalize, dedup, then
`sorted(..., key=priority_key)` (Python's sort is stable; `insertionSort`
with the key's `≤` is the same stable sort). -/
def finalizePaths (fs : FS) (paths : List String) : List String :=
  List.insertionSort (rankLE fs) (validNormAcc fs paths)

/-! ### Orchestrator (`FastTessdataFinder.find_tessdata_paths`) -/

/-- The method sequence of `find_tessdata_paths`, in source order:
environment, binary invocation, common paths, binary-relative, package
locations. -/
def fastMethods : List (World → List String) :=
  [checkEnvironmentVars, checkTesseractCommand, checkCommonPathsSmart,
   checkBinaryRelativePaths, checkPackageLocations]

/-- `self.found_paths.update(paths)` on the set of found paths, modelled as
first-occurrence dedup insertion into a list. -/
def dedupAppend (acc : List String) (ps : List String) : List String :=
  ps.foldl insertNew acc

/-- The pre-invocation guard of the probe loop:
`self._is_timeout() or len(self.found_paths) >= 3`. -/
def stopCond (w : World) (k : Nat) (found : List String) : Prop :=
  w.timeout < w.elapsed k ∨ 3 ≤ found.length

instance stopCondDecidable (w : World) (k : Nat) (found : List String) :
    Decidable (stopCond w k found) :=
  inferInstanceAs (Decidable (w.timeout < w.elapsed k ∨ 3 ≤ found.length))

/-- The probe loop: before each method, evaluate the guard; on the first
guard that holds, break (no later method runs).  Returns the accumulated
candidate set and the indices of the methods actually invoked. -/
def runLoop (w : World) :
    Nat → List (World → List String) → List String → List String × List Nat
  | _, [], found => (found, [])
  | k, m :: ms, found =>
    if stopCond w k found then (found, [])
    else
      let found2 := dedupAppend found (m w)
      let rest := runLoop w (k + 1) ms found2
      (rest.1, k :: rest.2)

/-- The probe phase of `find_tessdata_paths` on a cache miss. -/
def runSearch (w : World) : List String × List Nat :=
  runLoop w 0 fastMethods []

/-- `FastTessdataFinder.find_tessdata_paths`: cache first (a non-empty cached
list is returned unchanged), otherwise the guarded probe loop followed by
`_finalize_paths`.  (`_save_cache` is a write-only side effect.) -/
def findTessdataPaths (w : World) (useCache : Bool) : List String :=
  let cached := loadCache w.fs w.cache w.now
  if useCache && !cached.isEmpty then cached
  else finalizePaths w.fs (runSearch w).1

/-- `FastTessdataFinder.get_primary_path`. -/
def getPrimaryPath (w : World) : Option String :=
  (findTessdataPaths w true).head?

/-- Unguarded accumulation of the first methods' results. -/
def accRun (w : World) (found : List String)
    (ms : List (World → List String)) : List String :=
  ms.foldl (fun f m => dedupAppend f (m w)) found

/-- The candidate set after the first `j` probes, had none been skipped. -/
def accFound (w : World) (j : Nat) : List String :=
  accRun w [] (fastMethods.take j)

/-! ### `validate_tessdata_path` (module-level function) -/

/-- Spec glossary, modelled from its words: a *recognized data file* is a file
whose name ends with the engine's standard language-model suffix
`.traineddata`.  Used to compare the code's `glob('*.traineddata')` against
the specification's notion. -/
def recognizedDataFile (name : String) : Bool :=
  strEndsWith name ".traineddata"

/-- `pathlib.Path.glob('*.traineddata')`: the directory's entries whose name
fully matches `.*\.traineddata` — i.e. exactly the entries ending in
`.traineddata` (pathlib, unlike the `glob` module, also matches dotfiles).
`none` models a raise while scanning. -/
def globTraineddata (fs : FS) (p : String) : Option (List String) :=
  if fs.isDir p then
    match fs.listDir p with
    | some entries => some (entries.filter fun f => strEndsWith f ".traineddata")
    | none => none
  else some []

/-- The record built by `validate_tessdata_path`; every field is a key of the
returned dictionary (`pathExists` is the `exists` key, `sizeMb` the `size_mb`
key, `errorMsg` the optional `error` key). -/
structure ValidateInfo where
  path : String
  valid : Bool
  pathExists : Bool
  readable : Bool
  languageCount : Nat
  languages : List String
  sizeMb : ℚ
  errorMsg : Option String

/-- Total size of the matched files; `none` models `stat()` raising on any of
them (caught by the function's outer `except`). -/
def sumSizes (fs : FS) (dir : String) : List String → Option Nat
  | [] => some 0
  | f :: fsRest =>
    match fs.fileSize (pyJoin dir f), sumSizes fs dir fsRest with
    | some s, some rest => some (s + rest)
    | _, _ => none

/-- `validate_tessdata_path`: never raises; fills the info record as far as
the `exists`/`readable`/`glob` chain allows, any raise landing in the `error`
key with the already-assigned fields kept.  (Python's `round(x, 2)` on the
megabyte float is abstracted to the exact rational; no claim concerns the
value.) -/
def validateTessdataPath (w : World) (path : String) : ValidateInfo :=
  let base : ValidateInfo :=
    { path := path, valid := false, pathExists := false, readable := false,
      languageCount := 0, languages := [], sizeMb := 0, errorMsg := none }
  if w.fs.pathExists path then
    let base := { base with pathExists := true }
    if w.fs.readable path then
      let base := { base with readable := true }
      match globTraineddata w.fs path with
      | none => { base with errorMsg := some "OSError" }
      | some files =>
        let base :=
          { base with
            valid := decide (0 < files.length),
            languageCount := files.length,
            languages := files.map pathStem }
        match sumSizes w.fs path files with
        | none => { base with errorMsg := some "OSError" }
        | some total => { base with sizeMb := (total : ℚ) / (1024 * 1024) }
    else base
  else base

end Tessdata

namespace Tessdata.TesseractPathFinder

/-! ### The exhaustive finder (`tessract_path_finder.py`) -/

open Tessdata

/-- The hardcoded binary locations of `_find_tesseract_binaries`. -/
def oldCommonBinPaths : List String :=
  ["/usr/bin/tesseract", "/usr/local/bin/tesseract",
   "/opt/tesseract/bin/tesseract", "/bin/tesseract"]

/-- The recursive body of `_search_for_binaries` (`max_depth = 3`): the fuel
is `max_depth - depth + 1`, directories reached deeper return nothing.
Symlinked directories are skipped; only entries whose name contains `bin` (or
`sbin`, subsumed) are descended into; a listing failure yields nothing. -/
def searchForBinariesAux (w : World) (binaryName : String) :
    Nat → String → List String
  | 0, _ => []
  | fuel + 1, dir =>
    match w.fs.listDir dir with
    | none => []
    | some entries =>
      entries.flatMap fun entry =>
        let entryPath := pyJoin dir entry
        if w.fs.isFile entryPath && entry == binaryName then
          if w.fs.executable entryPath then [entryPath] else []
        else if w.fs.isDir entryPath && !w.fs.isLink entryPath
            && (strContains entry "bin" || strContains entry "sbin") then
          searchForBinariesAux w binaryName fuel entryPath
        else []

/-- `TesseractPathFinder._search_for_binaries` with its default depth 3. -/
def searchForBinaries (w : World) (root binaryName : String) : List String :=
  searchForBinariesAux w binaryName 4 root

/-- `TesseractPathFinder._find_tesseract_binaries`. -/
def oldFindTesseractBinaries (w : World) : List String :=
  let b1 := match w.which "tesseract" with | some b => [b] | none => []
  let b2 :=
    oldCommonBinPaths.foldl
      (fun bs p =>
        if w.fs.isFile p && w.fs.executable p && !(bs.contains p) then bs ++ [p]
        else bs)
      b1
  ["/usr", "/opt", "/usr/local"].foldl
    (fun bs root =>
      if w.fs.pathExists root then
        (searchForBinaries w root "tesseract").foldl
          (fun a b => if a.contains b then a else a ++ [b]) bs
      else bs)
    b2

/-- `TesseractPathFinder._get_tessdata_from_tesseract`: scan each binary's
`--print-parameters` stdout (whatever the exit status); keep whitespace
tokens that mention `tessdata`, are directories and validate.  The final
`list(set(paths))` is modelled as first-occurrence dedup. -/
def oldGetTessdataFromTesseract (w : World) : List String :=
  dedupAppend []
    ((oldFindTesseractBinaries w).flatMap fun binary =>
      match w.printParams binary with
      | none => []
      | some (_, out) =>
        ((splitOnChar '\n' out).filter
            (fun line => strContains (strLower line) "tessdata")).flatMap
          fun line =>
            (pySplitWs line).filter fun part =>
              strContains part "tessdata" && w.fs.isDir part
                && isValidTessdataDir w.fs part)

/-- The skip set of `_search_tessdata_recursive`. -/
def skipDirs : List String := ["proc", "sys", "dev", "run", "tmp"]

/-- The recursive body of `_search_tessdata_recursive` (`max_depth = 5`,
fuel `max_depth - depth + 1`): collect the current directory when it is
literally named `tessdata` and validates (this happens before the listing,
so it survives a listing failure), then descend into non-symlink,
non-skipped subdirectories. -/
def searchTessdataRecAux (w : World) : Nat → String → List String
  | 0, _ => []
  | fuel + 1, dir =>
    (if pyBasename dir == "tessdata" && isValidTessdataDir w.fs dir
      then [dir] else []) ++
    match w.fs.listDir dir with
    | none => []
    | some entries =>
      entries.flatMap fun entry =>
        let entryPath := pyJoin dir entry
        if w.fs.isDir entryPath && !w.fs.isLink entryPath
            && !(skipDirs.contains entry) then
          searchTessdataRecAux w fuel entryPath
        else []

/-- `TesseractPathFinder._search_tessdata_recursive` with its default
depth 5. -/
def searchTessdataRecursive (w : World) (root : String) : List String :=
  searchTessdataRecAux w 6 root

/-- `TesseractPathFinder._comprehensive_tessdata_search`: recursive walk plus
recursive glob patterns from the four roots, deduplicated
(`list(set(...))`, modelled as first-occurrence dedup). -/
def comprehensiveTessdataSearch (w : World) : List String :=
  dedupAppend []
    (["/usr", "/usr/local", "/opt", "/var"].flatMap fun root =>
      if w.fs.pathExists root then
        searchTessdataRecursive w root ++
        [root ++ "/**/tessdata", root ++ "/share/**/tessdata"].flatMap
          fun pat =>
            (w.globFn pat).filter fun m =>
              w.fs.isDir m && isValidTessdataDir w.fs m
      else [])

/-- `TesseractPathFinder._check_user_locations`. -/
def checkUserLocations (w : World) : List String :=
  [w.home ++ "/.local/share/tesseract/tessdata",
   w.home ++ "/.tesseract/tessdata",
   w.home ++ "/tesseract/tessdata"].filter
    fun loc => w.fs.isDir loc && isValidTessdataDir w.fs loc

/-- The relative offsets tried by step 2 of `find_paths`. -/
def oldRelativePaths : List String :=
  ["../share/tesseract-ocr/tessdata", "../share/tesseract/tessdata",
   "../../share/tesseract-ocr/tessdata", "../../share/tesseract/tessdata",
   "../tessdata", "tessdata"]

/-- `TesseractPathFinder.find_paths`: env var, binary-relative offsets,
`--print-parameters` output, comprehensive filesystem search, user
locations — appending each new path once. -/
def findPaths (w : World) : List String :=
  let paths : List String :=
    match w.env "TESSDATA_PREFIX" with
    | some v =>
      if v != "" && w.fs.isDir v && isValidTessdataDir w.fs v then [v] else []
    | none => []
  let paths :=
    (oldFindTesseractBinaries w).foldl
      (fun ps bin =>
        let binDir := pyParent (w.fs.resolve bin)
        oldRelativePaths.foldl
          (fun ps rel =>
            let path := normpath (pyJoin binDir rel)
            if w.fs.isDir path && isValidTessdataDir w.fs path
                && !(ps.contains path) then
              ps ++ [path]
            else ps)
          ps)
      paths
  let paths := dedupAppend paths (oldGetTessdataFromTesseract w)
  let paths := dedupAppend paths (comprehensiveTessdataSearch w)
  dedupAppend paths (checkUserLocations w)

/-- `TesseractPathFinder.find_primary_path`. -/
def findPrimaryPath (w : World) : Option String :=
  (findPaths w).head?

/-- `TesseractPathFinder.get_languages_from_path`: readable directories only;
match `.traineddata` case-insensitively and strip the 12-character suffix. -/
def getLanguagesFromPath (w : World) (dirpath : String) : List String :=
  if w.fs.readable dirpath then
    match w.fs.listDir dirpath with
    | some files =>
      (files.filter fun f => strEndsWith (strLower f) ".traineddata").map
        fun f => strDropRight f 12
    | none => []
  else []

/-- First-seen-order language collection over a list of directories (the
duplicated accumulation loop of `get_all_languages`). -/
def collectLangs (w : World) (dirs : List String) : List String :=
  dirs.foldl (fun ls d => dedupAppend ls (getLanguagesFromPath w d)) []

/-- The discovered paths that contain a `configs/box.train` file. -/
def boxTrainPaths (w : World) : List String :=
  (findPaths w).filter fun d => w.fs.isFile (d ++ "/configs/box.train")

/-- Python `sorted` on strings: stable sort by code-point order. -/
def pySorted (l : List String) : List String :=
  List.insertionSort (fun a b => strLe a b = true) l

/-- `TesseractPathFinder.get_all_languages`: languages from the paths holding
`configs/box.train`; only when that yields nothing, languages from every
discovered path; sorted. -/
def getAllLanguages (w : World) : List String :=
  let langs := collectLangs w (boxTrainPaths w)
  pySorted (if langs.isEmpty then collectLangs w (findPaths w) else langs)

end Tessdata.TesseractPathFinder

namespace Tessdata

/-! ### Concrete machines used to evaluate the model -/

/-- A filesystem with nothing in it; every listing fails. -/
def emptyFS : FS where
  isDir := fun _ => false
  isFile := fun _ => false
  pathExists := fun _ => false
  readable := fun _ => false
  executable := fun _ => false
  isLink := fun _ => false
  listDir := fun _ => none
  resolve := fun p => p
  fileSize := fun _ => none

/-- A Linux machine with nothing installed: empty filesystem, empty
environment, no tesseract binary, no cache, clock at zero, default 8-second
budget. -/
def emptyWorld : World where
  fs := emptyFS
  env := fun _ => none
  osType := "linux"
  home := "/root"
  cwd := "/"
  which := fun _ => none
  tesseractPrintParams := none
  printParams := fun _ => none
  reFindallTessdata := fun _ => []
  globFn := fun _ => []
  expandVars := fun s => s
  registry := fun _ => none
  winregAvailable := false
  cache := { present := false, mtime := 0, data := none }
  now := 0
  elapsed := fun _ => 0
  timeout := 8

/-- A directory whose only entry matches the data-file suffix in the wrong
case. -/
def fsC1 : FS :=
  { emptyFS with
    isDir := fun p => p == "/c1"
    pathExists := fun p => p == "/c1"
    readable := fun p => p == "/c1"
    listDir := fun p => if p == "/c1" then some ["ENG.TRAINEDDATA"] else none }

/-- An env-var data directory at a marker-free path with three data files,
next to a system-share installation with one data file (reachable through
the versioned glob pattern). -/
def fsC2 : FS :=
  { emptyFS with
    isDir := fun p =>
      p == "/data/models" || p == "/usr/share/tesseract-ocr/5/tessdata"
    pathExists := fun p =>
      p == "/data/models" || p == "/usr/share/tesseract-ocr/5/tessdata"
    readable := fun _ => true
    listDir := fun p =>
      if p == "/data/models" then
        some ["a.traineddata", "b.traineddata", "c.traineddata"]
      else if p == "/usr/share/tesseract-ocr/5/tessdata" then
        some ["eng.traineddata"]
      else none }

/-- `TESSDATA_PREFIX` points at the marker-free three-file directory of
`fsC2`. -/
def worldC2 : World :=
  { emptyWorld with
    fs := fsC2
    env := fun v => if v == "TESSDATA_PREFIX" then some "/data/models" else none
    globFn := fun pat =>
      if pat == "/usr/share/tesseract-ocr/*/tessdata" then
        ["/usr/share/tesseract-ocr/5/tessdata"]
      else [] }

/-- Same machine, but the env-var directory's path string happens to contain
the `tessdata_prefix` marker substring. -/
def fsC2m : FS :=
  { emptyFS with
    isDir := fun p =>
      p == "/srv/tessdata_prefix" || p == "/usr/share/tesseract-ocr/5/tessdata"
    pathExists := fun p =>
      p == "/srv/tessdata_prefix" || p == "/usr/share/tesseract-ocr/5/tessdata"
    readable := fun _ => true
    listDir := fun p =>
      if p == "/srv/tessdata_prefix" then
        some ["a.traineddata", "b.traineddata", "c.traineddata"]
      else if p == "/usr/share/tesseract-ocr/5/tessdata" then
        some ["eng.traineddata"]
      else none }

/-- `TESSDATA_PREFIX` points at the marker-carrying directory of `fsC2m`. -/
def worldC2m : World :=
  { emptyWorld with
    fs := fsC2m
    env := fun v =>
      if v == "TESSDATA_PREFIX" then some "/srv/tessdata_prefix" else none
    globFn := fun pat =>
      if pat == "/usr/share/tesseract-ocr/*/tessdata" then
        ["/usr/share/tesseract-ocr/5/tessdata"]
      else [] }

/-- A live tessdata directory for the cache scenarios. -/
def fsC3 : FS :=
  { emptyFS with
    isDir := fun p => p == "/c3"
    pathExists := fun p => p == "/c3"
    listDir := fun p => if p == "/c3" then some ["eng.traineddata"] else none }

/-- A cache file whose *stored* `timestamp` field is ancient (0) while the
file's mtime is fresh. -/
def cacheC3 : CacheState :=
  { present := true, mtime := 1000000,
    data := some { paths := ["/c3"], dataTimestamp := 0 } }

/-- A filesystem where `/live` is a valid data directory and `/dead` does not
exist. -/
def fsC4 : FS :=
  { emptyFS with
    isDir := fun p => p == "/live"
    pathExists := fun p => p == "/live"
    listDir := fun p => if p == "/live" then some ["eng.traineddata"] else none }

/-- A fresh, well-formed cache record listing a dead path and a live path. -/
def cacheC4 : CacheState :=
  { present := true, mtime := 0,
    data := some { paths := ["/dead", "/live"], dataTimestamp := 0 } }

/-- Two distinct valid directories whose paths differ only in letter case
(possible on a case-sensitive filesystem), with identical contents. -/
def fsC6 : FS :=
  { emptyFS with
    isDir := fun p => p == "/A" || p == "/a"
    pathExists := fun p => p == "/A" || p == "/a"
    listDir := fun p =>
      if p == "/A" || p == "/a" then some ["x.traineddata"] else none }

/-- A filesystem in which the raw candidate `/a/../b` lists fine (as happens
when `/a` is a symlink, where `..` does not resolve to `/`), while its
lexical normalization `/b` does not exist. -/
def fsC7 : FS :=
  { emptyFS with
    isDir := fun p => p == "/a/../b"
    pathExists := fun p => p == "/a/../b"
    listDir := fun p => if p == "/a/../b" then some ["x.traineddata"] else none }

/-- First user-location directory of the C9 scenario (has
`configs/box.train`). -/
def dirC9A : String := "/h/.local/share/tesseract/tessdata"

/-- Second user-location directory of the C9 scenario (no `box.train`). -/
def dirC9B : String := "/h/.tesseract/tessdata"

/-- Two valid user-location data directories; only the first carries a
`configs/box.train` file. -/
def fsC9 : FS :=
  { emptyFS with
    isDir := fun p => p == dirC9A || p == dirC9B
    readable := fun p => p == dirC9A || p == dirC9B
    isFile := fun p => p == dirC9A ++ "/configs/box.train"
    listDir := fun p =>
      if p == dirC9A then some ["eng.traineddata"]
      else if p == dirC9B then some ["fra.traineddata"]
      else none }

/-- Home at `/h` over `fsC9`; nothing else installed. -/
def worldC9 : World := { emptyWorld with fs := fsC9, home := "/h" }

/-- A single valid user-location directory holding `eng.traineddata` and
`fra.traineddata`, without `box.train`. -/
def fsC9b : FS :=
  { emptyFS with
    isDir := fun p => p == dirC9B
    readable := fun p => p == dirC9B
    listDir := fun p =>
      if p == dirC9B then some ["eng.traineddata", "fra.traineddata"]
      else none }

/-- Home at `/h` over `fsC9b`. -/
def worldC9b : World := { emptyWorld with fs := fsC9b, home := "/h" }

/-- A readable data directory with two data files of 1 MiB each. -/
def fsC10 : FS :=
  { emptyFS with
    isDir := fun p => p == "/d10"
    pathExists := fun p => p == "/d10"
    readable := fun p => p == "/d10"
    listDir := fun p =>
      if p == "/d10" then some ["eng.traineddata", "fra.traineddata"] else none
    fileSize := fun p =>
      if p == "/d10/eng.traineddata" || p == "/d10/fra.traineddata" then
        some 1048576
      else none }

/-- The world around `fsC10`. -/
def worldC10 : World := { emptyWorld with fs := fsC10 }

/-! ### Generic lemmas about the building blocks -/

theorem mem_insertNew {acc : List String} {y x : String} :
    x ∈ insertNew acc y ↔ x ∈ acc ∨ x = y := by
  by_cases hy : y ∈ acc
  · rw [insertNew, if_pos (List.elem_iff.mpr hy)]
    constructor
    · exact Or.inl
    · rintro (hx | rfl)
      · exact hx
      · exact hy
  · rw [insertNew, if_neg (fun hc => hy (List.elem_iff.mp hc))]
    simp

theorem nodup_insertNew {acc : List String} {y : String} (h : acc.Nodup) :
    (insertNew acc y).Nodup := by
  by_cases hy : y ∈ acc
  · rw [insertNew, if_pos (List.elem_iff.mpr hy)]
    exact h
  · rw [insertNew, if_neg (fun hc => hy (List.elem_iff.mp hc))]
    simp [List.nodup_append, h, hy]

theorem mem_dedupAppend {ps : List String} :
    ∀ {acc : List String} {x : String},
      x ∈ dedupAppend acc ps ↔ x ∈ acc ∨ x ∈ ps := by
  induction ps with
  | nil => simp [dedupAppend]
  | cons p ps ih =>
    intro acc x
    show x ∈ dedupAppend (insertNew acc p) ps ↔ _
    rw [ih, mem_insertNew]
    simp only [List.mem_cons]
    tauto

theorem nodup_dedupAppend {ps : List String} :
    ∀ {acc : List String}, acc.Nodup → (dedupAppend acc ps).Nodup := by
  induction ps with
  | nil => intro acc h; exact h
  | cons p ps ih =>
    intro acc h
    exact ih (nodup_insertNew h)

theorem mem_validNormAcc_aux (fs : FS) :
    ∀ (c acc : List String) (x : String),
      x ∈ c.foldl (finalizeStep fs) acc ↔
        x ∈ acc ∨ ∃ raw, raw ∈ c ∧ isValidTessdataQuick fs raw = true ∧
          normpath raw = x := by
  intro c
  induction c with
  | nil => simp
  | cons p c ih =>
    intro acc x
    rw [List.foldl_cons, ih]
    unfold finalizeStep
    by_cases hv : isValidTessdataQuick fs p = true
    · rw [if_pos hv, mem_insertNew]
      constructor
      · rintro (⟨hx | rfl⟩ | ⟨raw, hraw, hvr, hnr⟩)
        · exact Or.inl hx
        · exact Or.inr ⟨p, List.mem_cons_self .., hv, rfl⟩
        · exact Or.inr ⟨raw, List.mem_cons_of_mem _ hraw, hvr, hnr⟩
      · rintro (hx | ⟨raw, hraw, hvr, hnr⟩)
        · exact Or.inl (Or.inl hx)
        · rcases List.mem_cons.mp hraw with rfl | hraw2
          · exact Or.inl (Or.inr hnr.symm)
          · exact Or.inr ⟨raw, hraw2, hvr, hnr⟩
    · rw [if_neg hv]
      constructor
      · rintro (hx | ⟨raw, hraw, hvr, hnr⟩)
        · exact Or.inl hx
        · exact Or.inr ⟨raw, List.mem_cons_of_mem _ hraw, hvr, hnr⟩
      · rintro (hx | ⟨raw, hraw, hvr, hnr⟩)
        · exact Or.inl hx
        · rcases List.mem_cons.mp hraw with rfl | hraw2
          · exact absurd hvr hv
          · exact Or.inr ⟨raw, hraw2, hvr, hnr⟩

theorem mem_validNormAcc {fs : FS} {c : List String} {x : String} :
    x ∈ validNormAcc fs c ↔
      ∃ raw, raw ∈ c ∧ isValidTessdataQuick fs raw = true ∧ normpath raw = x := by
  unfold validNormAcc
  rw [mem_validNormAcc_aux]
  simp

theorem nodup_validNormAcc {fs : FS} {c : List String} :
    (validNormAcc fs c).Nodup := by
  unfold validNormAcc
  suffices h : ∀ (c acc : List String), acc.Nodup → (c.foldl (finalizeStep fs) acc).Nodup by
    exact h c [] List.nodup_nil
  intro c
  induction c with
  | nil => intro acc h; exact h
  | cons p c ih =>
    intro acc h
    rw [List.foldl_cons]
    apply ih
    unfold finalizeStep
    by_cases hv : isValidTessdataQuick fs p = true
    · rw [if_pos hv]; exact nodup_insertNew h
    · rwa [if_neg hv]

/-! ### Order facts for the sort relations -/

theorem charListLe_total :
    ∀ as bs : List Char, charListLe as bs = true ∨ charListLe bs as = true
  | [], _ => Or.inl rfl
  | _ :: _, [] => Or.inr rfl
  | a :: as, b :: bs => by
    rcases lt_trichotomy a b with h | h | h
    · exact Or.inl (by simp [charListLe, h])
    · subst h
      rcases charListLe_total as bs with ih | ih
      · exact Or.inl (by simp [charListLe, lt_irrefl, ih])
      · exact Or.inr (by simp [charListLe, lt_irrefl, ih])
    · exact Or.inr (by simp [charListLe, h])

theorem charListLe_trans :
    ∀ as bs cs : List Char, charListLe as bs = true → charListLe bs cs = true →
      charListLe as cs = true
  | [], _, _, _, _ => rfl
  | _ :: _, [], _, h1, _ => by simp [charListLe] at h1
  | _ :: _, _ :: _, [], _, h2 => by simp [charListLe] at h2
  | a :: as, b :: bs, c :: cs, h1, h2 => by
    rcases lt_trichotomy a b with hab | hab | hab
    · rcases lt_trichotomy b c with hbc | hbc | hbc
      · simp [charListLe, lt_trans hab hbc]
      · subst hbc; simp [charListLe, hab]
      · simp [charListLe, asymm hbc, hbc] at h2
    · subst hab
      rcases lt_trichotomy a c with hac | hac | hac
      · simp [charListLe, hac]
      · subst hac
        simp only [charListLe, lt_irrefl, if_neg, if_false] at h1 h2 ⊢
        exact charListLe_trans as bs cs h1 h2
      · simp [charListLe, asymm hac, hac] at h2
    · simp [charListLe, asymm hab, hab] at h1

instance strLeTotal : IsTotal String (fun a b => strLe a b = true) :=
  ⟨fun a b => charListLe_total a.toList b.toList⟩

instance strLeTrans : IsTrans String (fun a b => strLe a b = true) :=
  ⟨fun a b c h1 h2 => charListLe_trans a.toList b.toList c.toList h1 h2⟩

instance rankLETotal (fs : FS) : IsTotal String (rankLE fs) := ⟨by
  intro a b
  rcases lt_trichotomy (priorityScore fs a) (priorityScore fs b) with h | h | h
  · exact Or.inl (Or.inl h)
  · rcases charListLe_total (strLower a).toList (strLower b).toList with hs | hs
    · exact Or.inl (Or.inr ⟨h, hs⟩)
    · exact Or.inr (Or.inr ⟨h.symm, hs⟩)
  · exact Or.inr (Or.inl h)⟩

instance rankLETrans (fs : FS) : IsTrans String (rankLE fs) := ⟨by
  intro a b c hab hbc
  rcases hab with h1 | ⟨e1, s1⟩
  · rcases hbc with h2 | ⟨e2, s2⟩
    · exact Or.inl (lt_trans h1 h2)
    · exact Or.inl (e2 ▸ h1)
  · rcases hbc with h2 | ⟨e2, s2⟩
    · exact Or.inl (e1 ▸ h2)
    · exact Or.inr ⟨e1.trans e2,
        charListLe_trans (strLower a).toList (strLower b).toList
          (strLower c).toList s1 s2⟩⟩

/-! ### A total-search-failure collapses every probe to the empty list -/

theorem foldl_fixed {α : Type} {β : Type} {f : α → β → α}
    (h : ∀ a x, f a x = a) : ∀ (l : List β) (a : α), l.foldl f a = a
  | [], _ => rfl
  | x :: l, a => by rw [List.foldl_cons, h a x]; exact foldl_fixed h l a

theorem envVarStep_fixed {w : World}
    (hq : ∀ p, isValidTessdataQuick w.fs p = false)
    (paths : List String) (var : String) : envVarStep w paths var = paths := by
  unfold envVarStep
  cases w.env var with
  | none => rfl
  | some value =>
    dsimp only
    by_cases hv : value == ""
    · rw [if_pos hv]
    · rw [if_neg hv]
      rw [List.find?_eq_none.mpr (fun x _ => by simp [hq])]

theorem checkEnvironmentVars_eq_nil {w : World}
    (hq : ∀ p, isValidTessdataQuick w.fs p = false) :
    checkEnvironmentVars w = [] :=
  foldl_fixed (envVarStep_fixed hq) envVarNames []

theorem getTessdataFromBinary_eq_nil {w : World}
    (hq : ∀ p, isValidTessdataQuick w.fs p = false) (binaryPath : String) :
    getTessdataFromBinary w binaryPath = [] := by
  unfold getTessdataFromBinary
  apply foldl_fixed
  intro a rel
  simp [hq]

theorem checkTesseractCommand_eq_nil {w : World}
    (hq : ∀ p, isValidTessdataQuick w.fs p = false) :
    checkTesseractCommand w = [] := by
  unfold checkTesseractCommand
  cases w.tesseractPrintParams with
  | none => rfl
  | some pr =>
    have hout : ∀ out : String,
        ((splitOnChar '\n' out).filter
            (fun line => strContains (strLower line) "tessdata")).flatMap
          (fun line =>
            (w.reFindallTessdata line).filterMap fun m =>
              let cleanPath := rstripSlashes m
              if isValidTessdataQuick w.fs cleanPath then
                some (osAbspath w.cwd cleanPath)
              else none) = [] := by
      intro out
      rw [List.flatMap_eq_nil_iff]
      intro line _
      rw [List.filterMap_eq_nil_iff]
      intro m _
      simp [hq]
    obtain ⟨rc, out⟩ := pr
    dsimp only
    by_cases hrc : rc == 0
    · rw [if_pos hrc, hout]
      cases w.which "tesseract" with
      | none => rfl
      | some bin => simpa using getTessdataFromBinary_eq_nil hq bin
    · rw [if_neg hrc]
      cases w.which "tesseract" with
      | none => rfl
      | some bin => simpa using getTessdataFromBinary_eq_nil hq bin

theorem checkPathWithGlob_eq_nil {w : World}
    (hq : ∀ p, isValidTessdataQuick w.fs p = false) (pattern : String) :
    checkPathWithGlob w pattern = [] := by
  unfold checkPathWithGlob
  by_cases hstar : strContains (expandUser w.home (w.expandVars pattern)) "*" = true
  · rw [if_pos hstar, List.filterMap_eq_nil_iff.mpr (fun m _ => by simp [hq])]
  · rw [if_neg hstar, if_neg (by simp [hq])]

theorem checkCommonPathsSmart_eq_nil {w : World}
    (hq : ∀ p, isValidTessdataQuick w.fs p = false) :
    checkCommonPathsSmart w = [] := by
  unfold checkCommonPathsSmart
  rw [List.flatMap_eq_nil_iff]
  intro p _
  exact checkPathWithGlob_eq_nil hq p

theorem checkBinaryRelativePaths_eq_nil {w : World}
    (hq : ∀ p, isValidTessdataQuick w.fs p = false) :
    checkBinaryRelativePaths w = [] := by
  unfold checkBinaryRelativePaths
  rw [List.flatMap_eq_nil_iff]
  intro b _
  exact getTessdataFromBinary_eq_nil hq b

theorem checkPackageLocations_eq_nil {w : World}
    (hq : ∀ p, isValidTessdataQuick w.fs p = false) :
    checkPackageLocations w = [] := by
  unfold checkPackageLocations
  by_cases h1 : w.osType == "linux"
  · rw [if_pos h1, List.flatMap_eq_nil_iff]
    intro pat _
    rw [List.filterMap_eq_nil_iff]
    intro m _
    simp [hq]
  · rw [if_neg h1]
    by_cases h2 : w.osType == "darwin"
    · rw [if_pos h2, List.filter_eq_nil_iff.mpr (fun p _ => by simp [hq])]
    · rw [if_neg h2]
      by_cases h3 : w.osType == "windows"
      · rw [if_pos h3]
        by_cases h4 : w.winregAvailable = true
        · rw [if_pos h4]
          unfold checkWindowsRegistry
          rw [List.filterMap_eq_nil_iff]
          intro k _
          cases w.registry k with
          | none => rfl
          | some installPath => simp [hq]
        · rw [if_neg h4]
      · rw [if_neg h3]

theorem loadCache_eq_nil {fs : FS} (c : CacheState) (now : Int)
    (hq : ∀ p, isValidTessdataQuick fs p = false) :
    loadCache fs c now = [] := by
  unfold loadCache
  cases hp : c.present
  · rw [if_pos (by simp [hp])]
  · rw [if_neg (by simp [hp])]
    by_cases hage : now - c.mtime > cacheMaxAge
    · rw [if_pos hage]
    · rw [if_neg hage]
      cases hd : c.data with
      | none => rfl
      | some d =>
        have hfil : (d.paths.filter fun p => isValidTessdataQuick fs p) = [] :=
          List.filter_eq_nil_iff.mpr (fun a _ => by simp [hq])
        simp [hfil]

theorem runLoop_fst_of_all_nil {w : World} :
    ∀ (ms : List (World → List String)), (∀ m ∈ ms, m w = []) →
      ∀ (k : Nat) (found : List String), (runLoop w k ms found).1 = found := by
  intro ms
  induction ms with
  | nil => intro _ k found; rfl
  | cons m ms ih =>
    intro h k found
    by_cases hstop : stopCond w k found
    · simp [runLoop, hstop]
    · have hm : m w = [] := h m (List.mem_cons_self ..)
      have hrest := ih (fun m' hm' => h m' (List.mem_cons_of_mem _ hm')) (k + 1)
          (dedupAppend found (m w))
      have hded : dedupAppend found (m w) = found := by rw [hm]; rfl
      rw [hded] at hrest
      simpa [runLoop, hstop, hded] using hrest

theorem runSearch_fst_eq_nil {w : World}
    (hq : ∀ p, isValidTessdataQuick w.fs p = false) :
    (runSearch w).1 = [] := by
  apply runLoop_fst_of_all_nil
  intro m hm
  simp only [fastMethods, List.mem_cons, List.not_mem_nil, or_false] at hm
  rcases hm with rfl | rfl | rfl | rfl | rfl
  · exact checkEnvironmentVars_eq_nil hq
  · exact checkTesseractCommand_eq_nil hq
  · exact checkCommonPathsSmart_eq_nil hq
  · exact checkBinaryRelativePaths_eq_nil hq
  · exact checkPackageLocations_eq_nil hq

theorem findTessdataPaths_eq_nil {w : World} (useCache : Bool)
    (hq : ∀ p, isValidTessdataQuick w.fs p = false) :
    findTessdataPaths w useCache = [] := by
  unfold findTessdataPaths
  rw [loadCache_eq_nil w.cache w.now hq]
  rw [runSearch_fst_eq_nil hq]
  simp [finalizePaths, validNormAcc]

/-! ### Characterization of the guarded probe loop -/

theorem runLoop_spec (w : World) :
    ∀ (ms : List (World → List String)) (k : Nat) (found : List String),
      ∃ n, n ≤ ms.length ∧
        (runLoop w k ms found).2 = List.range' k n ∧
        (runLoop w k ms found).1 = accRun w found (ms.take n) ∧
        (∀ j, j < n → ¬ stopCond w (k + j) (accRun w found (ms.take j))) ∧
        (n < ms.length → stopCond w (k + n) (accRun w found (ms.take n))) := by
  intro ms
  induction ms with
  | nil =>
    intro k found
    exact ⟨0, Nat.le_refl 0, rfl, rfl, fun j hj => absurd hj (by omega),
      fun h => absurd h (by simp)⟩
  | cons m ms ih =>
    intro k found
    by_cases hstop : stopCond w k found
    · refine ⟨0, Nat.zero_le _, ?_, ?_, by omega, fun _ => ?_⟩
      · simp [runLoop, hstop]
      · simp [runLoop, hstop, accRun]
      · simpa [accRun] using hstop
    · obtain ⟨n, hn, htr, hfd, hguards, hlast⟩ :=
        ih (k + 1) (dedupAppend found (m w))
      have hunf1 : (runLoop w k (m :: ms) found).2 =
          k :: (runLoop w (k + 1) ms (dedupAppend found (m w))).2 := by
        simp [runLoop, hstop]
      have hunf2 : (runLoop w k (m :: ms) found).1 =
          (runLoop w (k + 1) ms (dedupAppend found (m w))).1 := by
        simp [runLoop, hstop]
      have hacc : ∀ j, accRun w found ((m :: ms).take (j + 1)) =
          accRun w (dedupAppend found (m w)) (ms.take j) := by
        intro j
        simp [accRun]
      refine ⟨n + 1, by simpa using Nat.succ_le_succ hn, ?_, ?_, ?_, ?_⟩
      · rw [hunf1, htr, List.range'_succ]
      · rw [hunf2, hfd, hacc]
      · intro j hj
        match j with
        | 0 => simpa [accRun] using hstop
        | j + 1 =>
          rw [hacc]
          have := hguards j (by omega)
          simpa [Nat.add_assoc, Nat.add_comm 1 j] using this
      · intro hlt
        have := hlast (by simpa using Nat.lt_of_succ_lt_succ hlt)
        rw [hacc]
        simpa [Nat.add_assoc, Nat.add_comm 1 n] using this

end Tessdata

namespace Tessdata.TesseractPathFinder

/-! ### Total-search-failure lemmas for the exhaustive finder -/

theorem oldGetTessdataFromTesseract_eq_nil {w : World}
    (hd : ∀ p, isValidTessdataDir w.fs p = false) :
    oldGetTessdataFromTesseract w = [] := by
  unfold oldGetTessdataFromTesseract
  have hflat : ((oldFindTesseractBinaries w).flatMap fun binary =>
      match w.printParams binary with
      | none => []
      | some (_, out) =>
        ((splitOnChar '\n' out).filter
            (fun line => strContains (strLower line) "tessdata")).flatMap
          fun line =>
            (pySplitWs line).filter fun part =>
              strContains part "tessdata" && w.fs.isDir part
                && isValidTessdataDir w.fs part) = [] := by
    rw [List.flatMap_eq_nil_iff]
    intro binary _
    cases w.printParams binary with
    | none => rfl
    | some pr =>
      obtain ⟨rc, out⟩ := pr
      dsimp only
      rw [List.flatMap_eq_nil_iff]
      intro line _
      exact List.filter_eq_nil_iff.mpr (fun part _ => by simp [hd])
  rw [hflat]
  rfl

theorem searchTessdataRecAux_eq_nil {w : World}
    (hd : ∀ p, isValidTessdataDir w.fs p = false) :
    ∀ (fuel : Nat) (dir : String), searchTessdataRecAux w fuel dir = [] := by
  intro fuel
  induction fuel with
  | zero => intro _; rfl
  | succ fuel ih =>
    intro dir
    unfold searchTessdataRecAux
    rw [if_neg (by simp [hd])]
    cases w.fs.listDir dir with
    | none => rfl
    | some entries =>
      dsimp only
      rw [List.nil_append, List.flatMap_eq_nil_iff]
      intro entry _
      by_cases hcond : (w.fs.isDir (pyJoin dir entry) && !w.fs.isLink (pyJoin dir entry)
          && !(skipDirs.contains entry)) = true
      · rw [if_pos hcond]; exact ih _
      · rw [if_neg hcond]

theorem comprehensiveTessdataSearch_eq_nil {w : World}
    (hd : ∀ p, isValidTessdataDir w.fs p = false) :
    comprehensiveTessdataSearch w = [] := by
  unfold comprehensiveTessdataSearch
  have hflat : (["/usr", "/usr/local", "/opt", "/var"].flatMap fun root =>
      if w.fs.pathExists root then
        searchTessdataRecursive w root ++
        [root ++ "/**/tessdata", root ++ "/share/**/tessdata"].flatMap
          fun pat =>
            (w.globFn pat).filter fun m =>
              w.fs.isDir m && isValidTessdataDir w.fs m
      else []) = [] := by
    rw [List.flatMap_eq_nil_iff]
    intro root _
    by_cases hex : w.fs.pathExists root = true
    · rw [if_pos hex, searchTessdataRecursive, searchTessdataRecAux_eq_nil hd,
        List.nil_append, List.flatMap_eq_nil_iff]
      intro pat _
      exact List.filter_eq_nil_iff.mpr (fun m _ => by simp [hd])
    · rw [if_neg hex]
  rw [hflat]
  rfl

theorem checkUserLocations_eq_nil {w : World}
    (hd : ∀ p, isValidTessdataDir w.fs p = false) :
    checkUserLocations w = [] := by
  unfold checkUserLocations
  exact List.filter_eq_nil_iff.mpr (fun loc _ => by simp [hd])

theorem findPaths_eq_nil {w : World}
    (hd : ∀ p, isValidTessdataDir w.fs p = false) :
    findPaths w = [] := by
  unfold findPaths
  simp only [oldGetTessdataFromTesseract_eq_nil hd,
    comprehensiveTessdataSearch_eq_nil hd, checkUserLocations_eq_nil hd,
    dedupAppend, List.foldl_nil]
  cases henv : w.env "TESSDATA_PREFIX" with
  | none =>
    dsimp only
    apply foldl_fixed
    intro ps bin
    apply foldl_fixed
    intro a rel
    simp [hd]
  | some v =>
    dsimp only
    rw [if_neg (by simp [hd])]
    apply foldl_fixed
    intro ps bin
    apply foldl_fixed
    intro a rel
    simp [hd]

theorem findPrimaryPath_eq_none {w : World}
    (hd : ∀ p, isValidTessdataDir w.fs p = false) :
    findPrimaryPath w = none := by
  unfold findPrimaryPath
  rw [findPaths_eq_nil hd]
  rfl

end Tessdata.TesseractPathFinder

namespace Tessdata

/-! ### Claim theorems -/

/-- Claim C1 (counterexample): the claim asserts the validators accept a
directory containing an entry whose name ends with the data-file suffix
*case-insensitively*; but for the directory `/c1` whose only entry is
`ENG.TRAINEDDATA` (which does end with the suffix case-insensitively), both
validators return `false` — the code compares case-sensitively. -/
theorem c1_counterexample :
    fsC1.isDir "/c1" = true ∧
    fsC1.listDir "/c1" = some ["ENG.TRAINEDDATA"] ∧
    strEndsWith (strLower "ENG.TRAINEDDATA") ".traineddata" = true ∧
    isValidTessdataQuick fsC1 "/c1" = false ∧
    isValidTessdataDir fsC1 "/c1" = false :=
  ⟨rfl, rfl, rfl, rfl, rfl⟩

/-- Claim C1 (amended): both validators are total (never raise).
`_is_valid_tessdata_quick` returns true iff the path is a directory whose
listing succeeds and contains an entry whose pathlib suffix is exactly
`.traineddata` — a *case-sensitive* comparison, under which a bare
`.traineddata` entry does not count; `_is_valid_tessdata_dir` returns true
iff the listing succeeds and some entry ends with `.traineddata`
case-sensitively.  Nonexistent paths, non-directories, no-match directories
and permission errors (failed listings) all yield false. -/
theorem c1_validator_amended (fs : FS) (p : String) :
    (isValidTessdataQuick fs p = true ↔
      fs.isDir p = true ∧ ∃ es, fs.listDir p = some es ∧
        ∃ f ∈ es, pathSuffix f = ".traineddata") ∧
    (isValidTessdataDir fs p = true ↔
      ∃ es, fs.listDir p = some es ∧
        ∃ f ∈ es, strEndsWith f ".traineddata" = true) := by
  constructor
  · unfold isValidTessdataQuick
    cases hdir : fs.isDir p
    · simp
    · cases hls : fs.listDir p with
      | none => simp
      | some es => simp [List.any_eq_true]
  · unfold isValidTessdataDir
    cases hls : fs.listDir p with
    | none => simp
    | some es => simp [List.any_eq_true]

/-- Claim C3 (counterexample): the claim says a record whose *stored
timestamp* is older than 6 hours is a miss regardless of content; but the
code checks only the cache file's mtime.  `cacheC3` stores timestamp `0`,
read at `now = 1000000` (far more than 6 hours later), yet because its mtime
is fresh the load is a hit returning the stored path. -/
theorem c3_counterexample :
    cacheC3.data = some { paths := ["/c3"], dataTimestamp := 0 } ∧
    (1000000 : Int) - 0 > cacheMaxAge ∧
    loadCache fsC3 cacheC3 1000000 = ["/c3"] :=
  ⟨rfl, by decide, rfl⟩

/-- Claim C3 (amended): expiry is judged by the cache *file's modification
time*, not the stored timestamp field: whenever `now - mtime` exceeds
6 hours (21600 s), `_load_cache` is a miss (returns the empty list)
regardless of the record's contents. -/
theorem c3_expiry_amended (fs : FS) (c : CacheState) (now : Int)
    (h : now - c.mtime > cacheMaxAge) : loadCache fs c now = [] := by
  unfold loadCache
  cases hp : c.present
  · rw [if_pos (by simp [hp])]
  · rw [if_neg (by simp [hp]), if_pos h]

/-- Claim C3 witness: the amended expiry theorem applied to a concrete
over-age cache state. -/
theorem c3_expiry_witness :
    (30000 : Int) - 0 > cacheMaxAge ∧
    loadCache fsC3
      { present := true, mtime := 0,
        data := some { paths := ["/c3"], dataTimestamp := 29999 } } 30000 = [] :=
  ⟨by decide,
    c3_expiry_amended fsC3
      { present := true, mtime := 0,
        data := some { paths := ["/c3"], dataTimestamp := 29999 } } 30000
      (by decide)⟩

/-- Claim C4: a present, fresh, well-formed cache record loads as exactly the
subset of its stored paths that still pass the quick validator; a path that
is not a directory (e.g. no longer exists) is never in the result; and when
the load comes back empty — in particular when no stored path survives —
`find_tessdata_paths` behaves exactly as with caching disabled, i.e. it runs
the fresh search. -/
theorem c4_cache_revalidation (fs : FS) (c : CacheState) (now : Int)
    (d : CacheData) (hp : c.present = true)
    (hage : now - c.mtime ≤ cacheMaxAge) (hd : c.data = some d) :
    loadCache fs c now = d.paths.filter (fun p => isValidTessdataQuick fs p) ∧
    (∀ p, fs.isDir p = false → p ∉ loadCache fs c now) ∧
    (∀ w : World, loadCache w.fs w.cache w.now = [] →
      findTessdataPaths w true = findTessdataPaths w false) := by
  have h1 : loadCache fs c now =
      d.paths.filter (fun p => isValidTessdataQuick fs p) := by
    unfold loadCache
    rw [if_neg (by simp [hp]), if_neg (not_lt.mpr hage), hd]
    dsimp only
    by_cases he : (d.paths.filter (fun p => isValidTessdataQuick fs p)).isEmpty = true
    · rw [if_pos he]
      exact (List.isEmpty_iff.mp he).symm
    · rw [if_neg he]
  refine ⟨h1, ?_, ?_⟩
  · intro p hdir hmem
    rw [h1] at hmem
    have hv := List.of_mem_filter hmem
    have hv2 : isValidTessdataQuick fs p = false := by
      unfold isValidTessdataQuick
      rw [hdir]
      simp
    rw [hv2] at hv
    exact absurd hv (by simp)
  · intro w hload
    unfold findTessdataPaths
    rw [hload]
    rfl

/-- Claim C4 witness: the revalidation theorem applied to a fresh cache
listing a dead path and a live one — only the live path survives — and to
the empty world, where the empty load forces the fresh search. -/
theorem c4_cache_revalidation_witness :
    loadCache fsC4 cacheC4 100 = ["/live"] ∧
    "/dead" ∉ loadCache fsC4 cacheC4 100 ∧
    findTessdataPaths emptyWorld true = findTessdataPaths emptyWorld false := by
  obtain ⟨h1, h2, h3⟩ :=
    c4_cache_revalidation fsC4 cacheC4 100
      { paths := ["/dead", "/live"], dataTimestamp := 0 } rfl (by decide) rfl
  refine ⟨?_, h2 "/dead" rfl, h3 emptyWorld rfl⟩
  rw [h1]
  rfl

/-- Claim C8: when the validators reject every path — so no probe can yield
a validated candidate (no usable env var, no binary-relative or filesystem
hit) — the fast finder returns the empty list, its primary path is `none`,
and the exhaustive finder likewise returns the empty list and `none`; all
four functions are total, so no error reaches the caller. -/
theorem c8_empty_search (w : World)
    (hq : ∀ p, isValidTessdataQuick w.fs p = false)
    (hd : ∀ p, isValidTessdataDir w.fs p = false) :
    findTessdataPaths w true = [] ∧ getPrimaryPath w = none ∧
    TesseractPathFinder.findPaths w = [] ∧
    TesseractPathFinder.findPrimaryPath w = none := by
  have h1 := findTessdataPaths_eq_nil (w := w) true hq
  refine ⟨h1, ?_, TesseractPathFinder.findPaths_eq_nil hd,
    TesseractPathFinder.findPrimaryPath_eq_none hd⟩
  unfold getPrimaryPath
  rw [h1]
  rfl

/-- Claim C8 witness: the empty world — no environment variable, no binary,
empty filesystem — where every search comes back empty and none. -/
theorem c8_empty_search_witness :
    findTessdataPaths emptyWorld true = [] ∧
    getPrimaryPath emptyWorld = none ∧
    TesseractPathFinder.findPaths emptyWorld = [] ∧
    TesseractPathFinder.findPrimaryPath emptyWorld = none :=
  c8_empty_search emptyWorld (fun _ => rfl) (fun _ => rfl)

end Tessdata

namespace Tessdata

/-- Claim C5: on a cache miss the probe loop runs the methods of
`fastMethods` — environment, binary invocation, common paths,
binary-relative, package locations, in that fixed source order — and before
each invocation evaluates `stopCond` (elapsed time exceeds the budget, or at
least 3 distinct candidates found).  The invoked probes are exactly a prefix
`range n` of the sequence: every probe before the cut saw a false guard, and
if the cut comes before the end the guard held there — so once either
condition holds, no further probe is ever launched. -/
theorem c5_probe_order_guard (w : World) :
    ∃ n, n ≤ 5 ∧
      (runSearch w).2 = List.range n ∧
      (runSearch w).1 = accFound w n ∧
      (∀ j, j < n → ¬ stopCond w j (accFound w j)) ∧
      (n < 5 → stopCond w n (accFound w n)) := by
  obtain ⟨n, hn, htr, hfd, hg, hl⟩ := runLoop_spec w fastMethods 0 []
  refine ⟨n, by simpa using hn, ?_, ?_, ?_, ?_⟩
  · rw [List.range_eq_range']
    exact htr
  · exact hfd
  · intro j hj
    simpa using hg j hj
  · intro h5
    simpa using hl (by simpa using h5)

/-- Claim C2 (counterexample): `TESSDATA_PREFIX` points at `/data/models`, a
valid directory with 3 recognized data files; a system-share candidate with
1 data file is also discovered.  The claim predicts the env-var directory is
returned by the primary-path query and ranked strictly ahead; in fact the
marker boost is a *substring test on the path string* — `/data/models`
contains no marker, so the system-share candidate scores lower (better) and
is returned first. -/
theorem c2_counterexample :
    worldC2.env "TESSDATA_PREFIX" = some "/data/models" ∧
    isValidTessdataQuick worldC2.fs "/data/models" = true ∧
    langFileBonus worldC2.fs "/data/models" = -30 ∧
    langFileBonus worldC2.fs "/usr/share/tesseract-ocr/5/tessdata" = -10 ∧
    priorityScore worldC2.fs "/usr/share/tesseract-ocr/5/tessdata" <
      priorityScore worldC2.fs "/data/models" ∧
    getPrimaryPath worldC2 = some "/usr/share/tesseract-ocr/5/tessdata" :=
  ⟨rfl, rfl, rfl, rfl, by decide, rfl⟩

/-- Claim C2 (amended): the strong boost goes to a path whose *string*
contains an env-var-style marker substring (`tessdata_prefix` or
`tesseract_data`, matched on the lowercased path).  Such a path with 3
recognized data files scores strictly lower (better) than any marker-free
candidate with 1 data file, whatever other boosts the latter collects; and
when the env-var directory's path carries the marker, `get_primary_path`
indeed returns it ahead of a one-file system-share candidate. -/
theorem c2_marker_priority_amended :
    (∀ (fs : FS) (p q : String),
      (strContains (strLower p) "tessdata_prefix" = true ∨
        strContains (strLower p) "tesseract_data" = true) →
      strContains (strLower q) "tessdata_prefix" = false →
      strContains (strLower q) "tesseract_data" = false →
      langFileBonus fs p = -30 →
      langFileBonus fs q = -10 →
      priorityScore fs p < priorityScore fs q) ∧
    getPrimaryPath worldC2m = some "/srv/tessdata_prefix" := by
  constructor
  · intro fs p q hp hq1 hq2 hbp hbq
    have hscore : ∀ r : String, priorityScore fs r =
        (if strContains (strLower r) "tessdata_prefix"
            || strContains (strLower r) "tesseract_data" then (-1000 : Int)
          else 0)
        + (if strContains (strLower r) "/usr/share" then (-500 : Int) else 0)
        + (if strContains (strLower r) "home" || strContains (strLower r) "users"
              || strContains (strLower r) "~" then (-300 : Int) else 0)
        + langFileBonus fs r := fun _ => rfl
    have hpt : (if strContains (strLower p) "tessdata_prefix"
        || strContains (strLower p) "tesseract_data" then (-1000 : Int)
        else 0) = -1000 := by
      rcases hp with h | h <;> simp [h]
    have hqt : (if strContains (strLower q) "tessdata_prefix"
        || strContains (strLower q) "tesseract_data" then (-1000 : Int)
        else 0) = 0 := by
      simp [hq1, hq2]
    rw [hscore p, hscore q, hpt, hqt, hbp, hbq]
    split_ifs <;> omega
  · rfl

/-- Claim C2 witness: the amended ranking inequality applied to the concrete
marker-carrying env directory and the system-share candidate of
`worldC2m`. -/
theorem c2_marker_priority_witness :
    priorityScore worldC2m.fs "/srv/tessdata_prefix" <
      priorityScore worldC2m.fs "/usr/share/tesseract-ocr/5/tessdata" :=
  c2_marker_priority_amended.1 worldC2m.fs "/srv/tessdata_prefix"
    "/usr/share/tesseract-ocr/5/tessdata" (Or.inl (by decide)) (by decide)
    (by decide) (by decide) (by decide)

/-- Claim C6 (counterexample): two distinct valid directories `/A` and `/a`
(possible on a case-sensitive filesystem) have equal scores and equal
lowercased paths, so the stated tie-break cannot separate them; the stable
sort keeps input order, and enumerating the same candidate *set* in the two
possible orders yields two different finalized orders — Python's set
iteration order (hash-randomized across runs) is what reaches the sort. -/
theorem c6_counterexample :
    (["/A", "/a"] : List String).Perm ["/a", "/A"] ∧
    priorityScore fsC6 "/A" = priorityScore fsC6 "/a" ∧
    strLower "/A" = strLower "/a" ∧
    finalizePaths fsC6 ["/A", "/a"] = ["/A", "/a"] ∧
    finalizePaths fsC6 ["/a", "/A"] = ["/a", "/A"] ∧
    finalizePaths fsC6 ["/A", "/a"] ≠ finalizePaths fsC6 ["/a", "/A"] :=
  ⟨by decide, rfl, rfl, rfl, rfl, by decide⟩

/-- Claim C6 (amended): the finalizer's output is always sorted by ascending
`(composite score, lowercased path)` — ascending score with score ties in
nondecreasing case-insensitive lexical order — and as a function of the
candidate *list* it is deterministic, with permutations of the candidates
yielding the same members; but candidates that are equal up to letter case
can come out in either relative order (see the counterexample), so
determinism over an unordered candidate set holds only up to such ties. -/
theorem c6_ranking_amended :
    (∀ (fs : FS) (c : List String),
      (finalizePaths fs c).Sorted (rankLE fs)) ∧
    (∀ (fs : FS) (c₁ c₂ : List String), c₁.Perm c₂ →
      (finalizePaths fs c₁).Perm (finalizePaths fs c₂)) := by
  constructor
  · intro fs c
    exact List.sorted_insertionSort (rankLE fs) (validNormAcc fs c)
  · intro fs c₁ c₂ hperm
    have hmem : ∀ x, x ∈ validNormAcc fs c₁ ↔ x ∈ validNormAcc fs c₂ := by
      intro x
      rw [mem_validNormAcc, mem_validNormAcc]
      constructor <;> rintro ⟨raw, hr, hv, hn⟩
      · exact ⟨raw, hperm.mem_iff.mp hr, hv, hn⟩
      · exact ⟨raw, hperm.mem_iff.mpr hr, hv, hn⟩
    have hp : (validNormAcc fs c₁).Perm (validNormAcc fs c₂) :=
      (List.perm_ext_iff_of_nodup nodup_validNormAcc nodup_validNormAcc).mpr hmem
    exact (List.perm_insertionSort (rankLE fs) (validNormAcc fs c₁)).trans
      (hp.trans (List.perm_insertionSort (rankLE fs) (validNormAcc fs c₂)).symm)

/-- Claim C6 witness: the permutation half of the amended theorem applied to
the concrete case-colliding pair — the two finalized orders have the same
members. -/
theorem c6_ranking_witness :
    (finalizePaths fsC6 ["/A", "/a"]).Perm (finalizePaths fsC6 ["/a", "/A"]) :=
  c6_ranking_amended.2 fsC6 ["/A", "/a"] ["/a", "/A"] (by decide)

/-- Claim C7 (counterexample): finalizing the single raw candidate
`/a/../b` — valid on a filesystem where `/a` is a symlink, so that `/a/../b`
lists fine while the lexical normalization `/b` does not exist — produces
`["/b"]`, whose element fails the validator at the moment of finalization. -/
theorem c7_counterexample :
    isValidTessdataQuick fsC7 "/a/../b" = true ∧
    finalizePaths fsC7 ["/a/../b"] = ["/b"] ∧
    isValidTessdataQuick fsC7 "/b" = false :=
  ⟨rfl, rfl, rfl⟩

/-- Claim C7 (amended): for every input list of raw candidates the finalized
result contains each normalized path exactly once (no duplicates, and every
valid raw's normalization is present); every element is the normalization
of a raw candidate that passed the validator at finalization; and whenever
the candidates are already normalization-fixed — as they are in the actual
search flow, whose probes emit `abspath`/`resolve` outputs — every element
itself passes the validator. -/
theorem c7_finalize_amended (fs : FS) (c : List String) :
    (finalizePaths fs c).Nodup ∧
    (∀ raw, raw ∈ c → isValidTessdataQuick fs raw = true →
      normpath raw ∈ finalizePaths fs c) ∧
    (∀ p, p ∈ finalizePaths fs c →
      ∃ raw, raw ∈ c ∧ isValidTessdataQuick fs raw = true ∧ normpath raw = p) ∧
    ((∀ raw, raw ∈ c → normpath raw = raw) →
      ∀ p, p ∈ finalizePaths fs c → isValidTessdataQuick fs p = true) := by
  have hmem : ∀ p, p ∈ finalizePaths fs c ↔ p ∈ validNormAcc fs c := fun p =>
    (List.perm_insertionSort (rankLE fs) (validNormAcc fs c)).mem_iff
  refine ⟨?_, ?_, ?_, ?_⟩
  · exact (List.perm_insertionSort (rankLE fs)
      (validNormAcc fs c)).symm.nodup nodup_validNormAcc
  · intro raw hr hv
    exact (hmem _).mpr (mem_validNormAcc.mpr ⟨raw, hr, hv, rfl⟩)
  · intro p hp
    exact mem_validNormAcc.mp ((hmem p).mp hp)
  · intro hnorm p hp
    obtain ⟨raw, hr, hv, hn⟩ := mem_validNormAcc.mp ((hmem p).mp hp)
    rw [← hn, hnorm raw hr]
    exact hv

/-- Claim C7 witness: the amended theorem applied to the already-normalized
candidate `/live`: its normalization is in the output and passes the
validator. -/
theorem c7_finalize_witness :
    normpath "/live" ∈ finalizePaths fsC4 ["/live"] ∧
    isValidTessdataQuick fsC4 (normpath "/live") = true := by
  have h := c7_finalize_amended fsC4 ["/live"]
  have hmem := h.2.1 "/live" (List.mem_singleton_self _) rfl
  refine ⟨hmem, h.2.2.2 ?_ _ hmem⟩
  intro raw hr
  rcases List.mem_singleton.mp hr with rfl
  rfl

end Tessdata

namespace Tessdata.TesseractPathFinder

theorem mem_collectLangs_aux {w : World} :
    ∀ (ds acc : List String) (x : String),
      x ∈ ds.foldl (fun ls d => dedupAppend ls (getLanguagesFromPath w d)) acc ↔
        x ∈ acc ∨ ∃ d, d ∈ ds ∧ x ∈ getLanguagesFromPath w d := by
  intro ds
  induction ds with
  | nil => intro acc x; simp
  | cons d ds ih =>
    intro acc x
    rw [List.foldl_cons, ih, mem_dedupAppend]
    constructor
    · rintro ((hx | hl) | ⟨d2, hd2, hx⟩)
      · exact Or.inl hx
      · exact Or.inr ⟨d, List.mem_cons_self .., hl⟩
      · exact Or.inr ⟨d2, List.mem_cons_of_mem _ hd2, hx⟩
    · rintro (hx | ⟨d2, hd2, hx⟩)
      · exact Or.inl (Or.inl hx)
      · rcases List.mem_cons.mp hd2 with rfl | hd3
        · exact Or.inl (Or.inr hx)
        · exact Or.inr ⟨d2, hd3, hx⟩

theorem mem_collectLangs {w : World} {ds : List String} {x : String} :
    x ∈ collectLangs w ds ↔ ∃ d, d ∈ ds ∧ x ∈ getLanguagesFromPath w d := by
  unfold collectLangs
  rw [mem_collectLangs_aux]
  simp

theorem nodup_collectLangs {w : World} {ds : List String} :
    (collectLangs w ds).Nodup := by
  unfold collectLangs
  suffices h : ∀ (ds acc : List String), acc.Nodup →
      (ds.foldl (fun ls d => dedupAppend ls (getLanguagesFromPath w d)) acc).Nodup by
    exact h ds [] List.nodup_nil
  intro ds
  induction ds with
  | nil => intro acc h; exact h
  | cons d ds ih => intro acc h; exact ih _ (nodup_dedupAppend h)

end Tessdata.TesseractPathFinder

namespace Tessdata

open TesseractPathFinder in
/-- Claim C9 (counterexample): discovery on `worldC9` yields the two user
directories `dirC9A` (with `configs/box.train`, holding `eng`) and `dirC9B`
(without it, holding `fra`).  The claim says the language listing draws on
*every* validated discovered path, which would give `["eng", "fra"]`; the
code consults only the `box.train`-bearing paths when any exist, so it
returns `["eng"]` and drops `fra`. -/
theorem c9_counterexample :
    TesseractPathFinder.findPaths worldC9 = [dirC9A, dirC9B] ∧
    TesseractPathFinder.getLanguagesFromPath worldC9 dirC9B = ["fra"] ∧
    TesseractPathFinder.getAllLanguages worldC9 = ["eng"] :=
  ⟨rfl, rfl, rfl⟩

/-- Claim C9 (amended): `get_all_languages` returns a sorted, duplicate-free
list of the 12-character-suffix-stripped stems; its members come from the
discovered paths that contain `configs/box.train` when that phase collects
anything, and only otherwise from every discovered path.  On a single
discovered directory holding `eng.traineddata` and `fra.traineddata` (and no
`box.train`) it returns `["eng", "fra"]` as the claim's scenario states. -/
theorem c9_languages_amended :
    (∀ w : World,
      (TesseractPathFinder.getAllLanguages w).Sorted (fun a b => strLe a b = true) ∧
      (TesseractPathFinder.getAllLanguages w).Nodup ∧
      (TesseractPathFinder.collectLangs w (TesseractPathFinder.boxTrainPaths w) ≠ [] →
        ∀ x, x ∈ TesseractPathFinder.getAllLanguages w ↔
          ∃ d, d ∈ TesseractPathFinder.boxTrainPaths w ∧
            x ∈ TesseractPathFinder.getLanguagesFromPath w d) ∧
      (TesseractPathFinder.collectLangs w (TesseractPathFinder.boxTrainPaths w) = [] →
        ∀ x, x ∈ TesseractPathFinder.getAllLanguages w ↔
          ∃ d, d ∈ TesseractPathFinder.findPaths w ∧
            x ∈ TesseractPathFinder.getLanguagesFromPath w d)) ∧
    TesseractPathFinder.getAllLanguages worldC9b = ["eng", "fra"] := by
  constructor
  · intro w
    have hgdef : TesseractPathFinder.getAllLanguages w =
        TesseractPathFinder.pySorted
          (if (TesseractPathFinder.collectLangs w
              (TesseractPathFinder.boxTrainPaths w)).isEmpty then
            TesseractPathFinder.collectLangs w (TesseractPathFinder.findPaths w)
          else
            TesseractPathFinder.collectLangs w
              (TesseractPathFinder.boxTrainPaths w)) := rfl
    have hnd : (if (TesseractPathFinder.collectLangs w
          (TesseractPathFinder.boxTrainPaths w)).isEmpty then
        TesseractPathFinder.collectLangs w (TesseractPathFinder.findPaths w)
      else
        TesseractPathFinder.collectLangs w
          (TesseractPathFinder.boxTrainPaths w)).Nodup := by
      split
      · exact TesseractPathFinder.nodup_collectLangs
      · exact TesseractPathFinder.nodup_collectLangs
    have hperm : ∀ l : List String, (TesseractPathFinder.pySorted l).Perm l :=
      fun l => List.perm_insertionSort _ l
    refine ⟨?_, ?_, ?_, ?_⟩
    · rw [hgdef]
      exact List.sorted_insertionSort _ _
    · rw [hgdef]
      exact (hperm _).symm.nodup hnd
    · intro hne x
      have hie : (TesseractPathFinder.collectLangs w
          (TesseractPathFinder.boxTrainPaths w)).isEmpty = false := by
        cases hi : (TesseractPathFinder.collectLangs w
            (TesseractPathFinder.boxTrainPaths w)).isEmpty
        · rfl
        · exact absurd (List.isEmpty_iff.mp hi) hne
      rw [hgdef, (hperm _).mem_iff, hie]
      simp only [Bool.false_eq_true, if_false]
      exact TesseractPathFinder.mem_collectLangs
    · intro hnil x
      have hie : (TesseractPathFinder.collectLangs w
          (TesseractPathFinder.boxTrainPaths w)).isEmpty = true :=
        List.isEmpty_iff.mpr hnil
      rw [hgdef, (hperm _).mem_iff, hie]
      simp only [if_true]
      exact TesseractPathFinder.mem_collectLangs
  · rfl

/-- Claim C9 witness: on `worldC9b` the `box.train` phase collects nothing,
so the fallback phase applies and `fra` (from the single discovered
directory) is in the output of the amended membership characterization. -/
theorem c9_languages_witness :
    TesseractPathFinder.collectLangs worldC9b
      (TesseractPathFinder.boxTrainPaths worldC9b) = [] ∧
    "fra" ∈ TesseractPathFinder.getAllLanguages worldC9b :=
  ⟨rfl, ((c9_languages_amended.1 worldC9b).2.2.2 rfl "fra").mpr
    ⟨dirC9B, by decide, by decide⟩⟩

end Tessdata

namespace Tessdata

/-- Claim C10: `validate_tessdata_path` is total (never raises — every raise
point lands in the `error` key) and always returns the full record
(`path`, `valid`, `exists`, `readable`, `language_count`, `languages`,
`size_mb` are fields of `ValidateInfo`); whenever `valid` is true, `exists`
and `readable` are true, `language_count` equals the length of `languages`
and is at least 1, and `languages` is exactly the stems of the recognized
data files (glossary sense: entries ending in `.traineddata`) listed in the
directory; whenever the path does not exist or is not readable, `valid` is
false and `language_count` is 0. -/
theorem c10_validate_record (w : World) (path : String) :
    ((validateTessdataPath w path).path = path) ∧
    ((validateTessdataPath w path).valid = true →
      (validateTessdataPath w path).pathExists = true ∧
      (validateTessdataPath w path).readable = true ∧
      (validateTessdataPath w path).languageCount =
        (validateTessdataPath w path).languages.length ∧
      1 ≤ (validateTessdataPath w path).languageCount ∧
      ∃ es, w.fs.listDir path = some es ∧
        (validateTessdataPath w path).languages =
          (es.filter recognizedDataFile).map pathStem) ∧
    (((validateTessdataPath w path).pathExists = false ∨
        (validateTessdataPath w path).readable = false) →
      (validateTessdataPath w path).valid = false ∧
      (validateTessdataPath w path).languageCount = 0) := by
  unfold validateTessdataPath
  dsimp only
  by_cases hex : w.fs.pathExists path = true
  · rw [if_pos hex]
    by_cases hrd : w.fs.readable path = true
    · rw [if_pos hrd]
      unfold globTraineddata
      by_cases hdir : w.fs.isDir path = true
      · rw [if_pos hdir]
        cases hls : w.fs.listDir path with
        | none =>
          dsimp only
          exact ⟨rfl, fun hv => absurd hv (by simp),
            fun h => absurd h (by simp)⟩
        | some es =>
          dsimp only
          cases hsz : sumSizes w.fs path
              (es.filter fun f => strEndsWith f ".traineddata") with
          | none =>
            dsimp only
            refine ⟨rfl, fun hv => ?_, fun h => absurd h (by simp)⟩
            refine ⟨rfl, rfl, by simp, of_decide_eq_true hv, es, rfl, rfl⟩
          | some total =>
            dsimp only
            refine ⟨rfl, fun hv => ?_, fun h => absurd h (by simp)⟩
            refine ⟨rfl, rfl, by simp, of_decide_eq_true hv, es, rfl, rfl⟩
      · rw [if_neg hdir]
        dsimp only
        cases hsz : sumSizes w.fs path ([] : List String) with
        | none =>
          dsimp only
          exact ⟨rfl, fun hv => absurd hv (by simp),
            fun h => absurd h (by simp)⟩
        | some total =>
          dsimp only
          exact ⟨rfl, fun hv => absurd hv (by simp),
            fun h => absurd h (by simp)⟩
    · rw [if_neg hrd]
      exact ⟨rfl, fun hv => absurd hv (by simp), fun _ => ⟨rfl, rfl⟩⟩
  · rw [if_neg hex]
    exact ⟨rfl, fun hv => absurd hv (by simp), fun _ => ⟨rfl, rfl⟩⟩

/-- Claim C10 witness: on the readable two-file directory `/d10`, the record
is valid with languages `["eng", "fra"]`, and the implications of the record
theorem are discharged at this concrete input. -/
theorem c10_validate_record_witness :
    (validateTessdataPath worldC10 "/d10").valid = true ∧
    (validateTessdataPath worldC10 "/d10").languages = ["eng", "fra"] ∧
    (validateTessdataPath worldC10 "/d10").pathExists = true ∧
    (validateTessdataPath worldC10 "/d10").readable = true ∧
    1 ≤ (validateTessdataPath worldC10 "/d10").languageCount := by
  have h := (c10_validate_record worldC10 "/d10").2.1 (by decide)
  exact ⟨by decide, by decide, h.1, h.2.1, h.2.2.2.1⟩

end Tessdata
